import Mathlib

/-!
Shallow embedding of the rustsync directory-mirroring daemon (src/main.rs).

Paths are modelled as lists of components (the leading root of an absolute
path is implicit, shared by every path).  The operating system is modelled
by an oracle structure `Fs` answering the read-only queries the code makes
(`is_dir`, `is_file`, `is_symlink`, `fs::metadata`, `fs::read_link`) and
deciding which mutating calls fail.  Each event handler is translated into
a function producing the list of observable effects it performs, in order:
stdout/stderr lines (modelled structurally, one constructor per
`println!`/`eprintln!` call site of the source) and attempted filesystem
mutations.  The Unix configuration of the source is modelled (the
`#[cfg(unix)]` blocks; timestamps via `atime/mtime`, ownership via
`libc::chown`).
-/

namespace Rustsync

/-- A filesystem path, as its list of components (absolute root implicit). -/
abbrev RPath := List String

/-- Rust `Path::strip_prefix`: component-wise prefix removal, `None` on
mismatch. -/
def strip_prefix_path : RPath → RPath → Option RPath
  | p, [] => some p
  | [], _ :: _ => none
  | a :: p, b :: base => if a = b then strip_prefix_path p base else none

/-- `change_root` of src/main.rs lines 26-29:
`path.strip_prefix(watch_root).ok()?` then `output_root.join(relative)`. -/
def change_root (watch_root output_root path : RPath) : Option RPath :=
  (strip_prefix_path path watch_root).map (fun relative => output_root ++ relative)

/-- Rust `Path::parent`: drops the last component; `None` at the root. -/
def path_parent : RPath → Option RPath
  | [] => none
  | x :: xs => some ((x :: xs).dropLast)

/-- The slice of `fs::Metadata` the code reads (Unix configuration). -/
structure Metadata where
  perm : Nat
  atime : Int
  atimeNsec : Nat
  mtime : Int
  mtimeNsec : Nat
  uid : Nat
  gid : Nat
  nlink : Nat
  deriving DecidableEq

/-- notify `RenameMode` (constructors renamed only where Lean keywords
collide). -/
inductive RenameMode where
  | any | toOnly | fromOnly | both | other
  deriving DecidableEq

/-- notify `MetadataKind`. -/
inductive MetadataKind where
  | any | accessTime | writeTime | permissions | ownership | extended | other
  deriving DecidableEq

/-- notify `DataChange`. -/
inductive DataChange where
  | any | size | content | other
  deriving DecidableEq

/-- notify `ModifyKind`. -/
inductive ModifyKind where
  | any
  | data (c : DataChange)
  | metadata (k : MetadataKind)
  | name (m : RenameMode)
  | other
  deriving DecidableEq

/-- notify `EventKind` (the code ignores the payloads of `Access`, `Create`
and `Remove` with `(_)`, so they are not modelled). -/
inductive EventKind where
  | any
  | access
  | create
  | modify (k : ModifyKind)
  | remove
  | other
  deriving DecidableEq

/-- One structured log line per `println!`/`eprintln!` call site of
src/main.rs that the handlers can reach. -/
inductive LogLine where
  | notUnderWatchRoot (watchRoot p : RPath)
  | getMetadataFailed (p : RPath)
  | createDirFailed (p : RPath)
  | unknownUnsupported (p : RPath)
  | otherUnsupported (p : RPath)
  | modifyOtherUnsupported (p : RPath)
  | createOtherUnsupported (p : RPath)
  | deleted (p : RPath)
  | deleteFailed (p : RPath)
  | renamed (old new : RPath)
  | renameFailed (old new : RPath)
  | modifyMetadata (p : RPath)
  | readMetadataFailed (p : RPath)
  | setPermissionsFailed (p : RPath)
  | setTimestampsFailed (p : RPath)
  | chownConvertFailed (p : RPath)
  | chownFailed (p : RPath)
  | dataChanged (p : RPath)
  | createParentDirsFailed (p : RPath)
  | copyFailed (src dst : RPath)
  | createdSymlink (p : RPath)
  | readSymlinkFailed (p : RPath)
  | createSymlinkFailed (link target : RPath)
  | createdHardlinkUnsupported (p : RPath)
  | createdFile (p : RPath)
  | createdDir (p : RPath)
  deriving DecidableEq

/-- An observable effect of a handler: a log line, or an attempted
filesystem mutation (the call is the attempt; failure is separately
reported via a log line). -/
inductive Effect where
  | log (l : LogLine)
  | removeDirAll (p : RPath)
  | removeFile (p : RPath)
  | rename (src dst : RPath)
  | setPermissions (p : RPath) (perm : Nat)
  | setFileTimes (p : RPath) (atime : Int) (atimeNsec : Nat) (mtime : Int) (mtimeNsec : Nat)
  | chown (p : RPath) (uid gid : Nat)
  | createDirAll (p : RPath)
  | copyFile (src dst : RPath)
  | createDir (p : RPath)
  | symlink (target link : RPath)
  deriving DecidableEq

/-- Oracle for the operating system: read-only queries and failure of
mutating calls. -/
structure Fs where
  isDir : RPath → Bool
  isFile : RPath → Bool
  isSymlink : RPath → Bool
  metadata : RPath → Option Metadata
  readLink : RPath → Option RPath
  removeDirAllFails : RPath → Bool
  removeFileFails : RPath → Bool
  renameFails : RPath → RPath → Bool
  setPermissionsFails : RPath → Bool
  setFileTimesFails : RPath → Bool
  cstringConvertFails : RPath → Bool
  chownFails : RPath → Bool
  createDirFails : RPath → Bool
  createDirAllFails : RPath → Bool
  copyFails : RPath → RPath → Bool
  symlinkFails : RPath → RPath → Bool

/-- `handle_event_delete` (lines 63-81). -/
def handle_event_delete (fs : Fs) (watch_root output_root path : RPath) : List Effect :=
  .log (.deleted path) ::
    match change_root watch_root output_root path with
    | none => [.log (.notUnderWatchRoot watch_root path)]
    | some new_target =>
      if fs.isDir new_target then
        .removeDirAll new_target ::
          (if fs.removeDirAllFails new_target then [.log (.deleteFailed new_target)] else [])
      else
        .removeFile new_target ::
          (if fs.removeFileFails new_target then [.log (.deleteFailed new_target)] else [])

/-- `handle_event_rename` (lines 83-105). -/
def handle_event_rename (fs : Fs) (watch_root output_root path new_path : RPath) : List Effect :=
  .log (.renamed path new_path) ::
    match change_root watch_root output_root path with
    | none => [.log (.notUnderWatchRoot watch_root path)]
    | some original_target =>
      match change_root watch_root output_root new_path with
      | none => [.log (.notUnderWatchRoot watch_root new_path)]
      | some new_target =>
        .rename original_target new_target ::
          (if fs.renameFails original_target new_target then
            [.log (.renameFailed original_target new_target)] else [])

/-- `handle_event_metadata` (lines 107-185), Unix configuration: set
permissions, then timestamps (`as u32` truncates the nanosecond fields),
then `libc::chown` guarded by the `CString` conversion. -/
def handle_event_metadata (fs : Fs) (watch_root output_root path : RPath) : List Effect :=
  .log (.modifyMetadata path) ::
    match change_root watch_root output_root path with
    | none => [.log (.notUnderWatchRoot watch_root path)]
    | some mirrored_path =>
      match fs.metadata path with
      | none => [.log (.readMetadataFailed path)]
      | some md =>
        (.setPermissions mirrored_path md.perm ::
          (if fs.setPermissionsFails mirrored_path then
            [.log (.setPermissionsFailed mirrored_path)] else []))
        ++ (.setFileTimes mirrored_path md.atime (md.atimeNsec % 2 ^ 32)
              md.mtime (md.mtimeNsec % 2 ^ 32) ::
            (if fs.setFileTimesFails mirrored_path then
              [.log (.setTimestampsFailed mirrored_path)] else []))
        ++ (if fs.cstringConvertFails mirrored_path then
              [.log (.chownConvertFailed mirrored_path)]
            else
              .chown mirrored_path md.uid md.gid ::
                (if fs.chownFails mirrored_path then
                  [.log (.chownFailed mirrored_path)] else []))

/-- `handle_event_data` (lines 188-211): ensure parent directories, then
whole-file copy; a parent-creation failure returns before the copy. -/
def handle_event_data (fs : Fs) (watch_root output_root path : RPath) : List Effect :=
  .log (.dataChanged path) ::
    match change_root watch_root output_root path with
    | none => [.log (.notUnderWatchRoot watch_root path)]
    | some mirrored_path =>
      match path_parent mirrored_path with
      | some parent =>
        .createDirAll parent ::
          (if fs.createDirAllFails parent then
            [.log (.createParentDirsFailed mirrored_path)]
          else
            .copyFile path mirrored_path ::
              (if fs.copyFails path mirrored_path then
                [.log (.copyFailed path mirrored_path)] else []))
      | none =>
        .copyFile path mirrored_path ::
          (if fs.copyFails path mirrored_path then
            [.log (.copyFailed path mirrored_path)] else [])

/-- `handle_event_create_symlink` (lines 213-237): the target is remapped
when it lies under the watch root, else kept verbatim (`unwrap_or`). -/
def handle_event_create_symlink (fs : Fs) (watch_root output_root path : RPath) : List Effect :=
  .log (.createdSymlink path) ::
    match change_root watch_root output_root path with
    | none => [.log (.notUnderWatchRoot watch_root path)]
    | some new_symlink_path =>
      match fs.readLink path with
      | none => [.log (.readSymlinkFailed path)]
      | some original_target =>
        let new_target := (change_root watch_root output_root original_target).getD original_target
        .symlink new_target new_symlink_path ::
          (if fs.symlinkFails new_target new_symlink_path then
            [.log (.createSymlinkFailed new_symlink_path new_target)] else [])

/-- `handle_event_create_hardlink` (lines 239-241): log only. -/
def handle_event_create_hardlink (_watch_root _output_root path : RPath) : List Effect :=
  [.log (.createdHardlinkUnsupported path)]

/-- `handle_event_create_regularfile` (lines 243-245): log only. -/
def handle_event_create_regularfile (_watch_root _output_root path : RPath) : List Effect :=
  [.log (.createdFile path)]

/-- `handle_event_create_dir` (lines 247-256). -/
def handle_event_create_dir (fs : Fs) (watch_root output_root path : RPath) : List Effect :=
  .log (.createdDir path) ::
    match change_root watch_root output_root path with
    | some new_path =>
      .createDir new_path ::
        (if fs.createDirFails new_path then [.log (.createDirFailed new_path)] else [])
    | none => [.log (.notUnderWatchRoot watch_root path)]

/-- `handle_event_create_file` (lines 258-285): metadata probe, then the
link-count dispatch `nlink > 1`. -/
def handle_event_create_file (fs : Fs) (watch_root output_root path : RPath) : List Effect :=
  match fs.metadata path with
  | none => [.log (.getMetadataFailed path)]
  | some meta =>
    if 1 < meta.nlink then
      handle_event_create_hardlink watch_root output_root path
    else
      handle_event_create_regularfile watch_root output_root path

/-- `handle_event` (lines 287-341).  `&paths[0]` (and `&paths[1]` in the
`RenameMode::Both` arm) are panicking indexing operations; a panic is
modelled as `none`. -/
def handle_event (fs : Fs) (watch_root output_root : RPath) (event_kind : EventKind)
    (paths : List RPath) : Option (List Effect) :=
  match paths.head? with
  | none => none
  | some path =>
    match event_kind with
    | .other => some [.log (.otherUnsupported path)]
    | .remove => some (handle_event_delete fs watch_root output_root path)
    | .modify mod_kind =>
      match mod_kind with
      | .other => some [.log (.modifyOtherUnsupported path)]
      | .name rename_mode =>
        match rename_mode with
        | .both =>
          match paths.get? 1 with
          | none => none
          | some path_new => some (handle_event_rename fs watch_root output_root path path_new)
        | _ => some []
      | .metadata metadata_mode =>
        match metadata_mode with
        | .any => some (handle_event_metadata fs watch_root output_root path)
        | _ => some []
      | .data data_change =>
        match data_change with
        | .any => some (handle_event_data fs watch_root output_root path)
        | _ => some []
      | .any => some []
    | .create =>
      if fs.isSymlink path then
        some (handle_event_create_symlink fs watch_root output_root path)
      else if fs.isFile path then
        some (handle_event_create_file fs watch_root output_root path)
      else if fs.isDir path then
        some (handle_event_create_dir fs watch_root output_root path)
      else
        some [.log (.createOtherUnsupported path)]
    | .access => some []
    | .any => some [.log (.unknownUnsupported path)]

/-- Whether an effect is a pure log line (no mutation). -/
def Effect.isLog : Effect → Bool
  | .log _ => true
  | _ => false

/-- The attempted destination mutations of a trace. -/
def mutations (tr : List Effect) : List Effect :=
  tr.filter (fun e => !e.isLog)

/-- The destination paths an effect writes to. -/
def mutTargets : Effect → List RPath
  | .log _ => []
  | .removeDirAll p => [p]
  | .removeFile p => [p]
  | .rename src dst => [src, dst]
  | .setPermissions p _ => [p]
  | .setFileTimes p _ _ _ _ => [p]
  | .chown p _ _ => [p]
  | .createDirAll p => [p]
  | .copyFile _ dst => [dst]
  | .createDir p => [p]
  | .symlink _ link => [link]

/-- A trivial oracle used to instantiate witnesses: everything answers
negatively and no mutating call fails. -/
def fs0 : Fs where
  isDir := fun _ => false
  isFile := fun _ => false
  isSymlink := fun _ => false
  metadata := fun _ => none
  readLink := fun _ => none
  removeDirAllFails := fun _ => false
  removeFileFails := fun _ => false
  renameFails := fun _ _ => false
  setPermissionsFails := fun _ => false
  setFileTimesFails := fun _ => false
  cstringConvertFails := fun _ => false
  chownFails := fun _ => false
  createDirFails := fun _ => false
  createDirAllFails := fun _ => false
  copyFails := fun _ _ => false
  symlinkFails := fun _ _ => false

lemma strip_prefix_path_append (base r : RPath) :
    strip_prefix_path (base ++ r) base = some r := by
  induction base with
  | nil => simp [strip_prefix_path]
  | cons b bs ih => simp [strip_prefix_path, ih]

lemma eq_append_of_strip_prefix_path :
    ∀ {base p r : RPath}, strip_prefix_path p base = some r → p = base ++ r := by
  intro base
  induction base with
  | nil =>
    intro p r h
    simpa [strip_prefix_path] using h
  | cons b bs ih =>
    intro p r h
    match p with
    | [] => simp [strip_prefix_path] at h
    | a :: as =>
      by_cases hab : a = b
      · subst hab
        simp only [strip_prefix_path, if_pos rfl] at h
        simpa using ih h
      · simp [strip_prefix_path, hab] at h

lemma change_root_append (w o r : RPath) :
    change_root w o (w ++ r) = some (o ++ r) := by
  simp [change_root, strip_prefix_path_append]

lemma change_root_eq_some_iff {w o p m : RPath} :
    change_root w o p = some m ↔ ∃ r, p = w ++ r ∧ m = o ++ r := by
  constructor
  · intro h
    rcases Option.map_eq_some'.mp h with ⟨r, hr, hm⟩
    exact ⟨r, eq_append_of_strip_prefix_path hr, hm.symm⟩
  · rintro ⟨r, rfl, rfl⟩
    exact change_root_append w o r

lemma change_root_eq_none_iff {w o p : RPath} :
    change_root w o p = none ↔ ¬ w <+: p := by
  constructor
  · intro h hpre
    rcases hpre with ⟨r, rfl⟩
    rw [change_root_append] at h
    exact Option.noConfusion h
  · intro hpre
    cases hcr : change_root w o p with
    | none => rfl
    | some m =>
      rcases change_root_eq_some_iff.mp hcr with ⟨r, rfl, _⟩
      exact absurd ⟨r, rfl⟩ hpre

/-- C2: for every path with WatchRoot as a component-wise prefix,
`change_root` succeeds and yields OutputRoot joined with the suffix of the
path relative to WatchRoot; for every other path it returns no result. -/
theorem C2_change_root_spec (w o p : RPath) :
    (w <+: p → change_root w o p = some (o ++ p.drop w.length))
    ∧ (¬ w <+: p → change_root w o p = none) := by
  constructor
  · rintro ⟨r, rfl⟩
    rw [List.drop_left]
    exact change_root_append w o r
  · exact fun h => change_root_eq_none_iff.mpr h

/-- Witness for C2 at concrete inputs. -/
theorem C2_change_root_spec_witness :
    change_root ["w"] ["o"] ["w", "a", "b"] = some (["o"] ++ ["a", "b"])
    ∧ change_root ["w"] ["o"] ["v", "a"] = none := by
  constructor
  · have h := (C2_change_root_spec ["w"] ["o"] ["w", "a", "b"]).1 (by decide)
    simpa using h
  · exact (C2_change_root_spec ["w"] ["o"] ["v", "a"]).2 (by decide)

/-- C10: the handler indexes `paths[0]` unconditionally (and `paths[1]` for
a both-halves rename) before dispatching: with at least one path (two for a
both-halves rename) no out-of-bounds access occurs, and with an empty path
list (or a both-halves rename with fewer than two paths) the handler
panics (modelled as `none`) instead of reporting a non-fatal error. -/
theorem C10_path_indexing (fs : Fs) (w o : RPath) (kind : EventKind) (paths : List RPath) :
    (paths = [] → handle_event fs w o kind paths = none)
    ∧ (paths ≠ [] → kind ≠ .modify (.name .both) →
        (handle_event fs w o kind paths).isSome = true)
    ∧ (2 ≤ paths.length → (handle_event fs w o kind paths).isSome = true)
    ∧ (kind = .modify (.name .both) → paths.length < 2 →
        handle_event fs w o kind paths = none) := by
  refine ⟨?_, ?_, ?_, ?_⟩
  · rintro rfl
    rfl
  · intro hne hnb
    match paths with
    | [] => exact absurd rfl hne
    | p :: rest =>
      cases kind with
      | modify mk =>
        cases mk with
        | name rm =>
          cases rm with
          | both => exact absurd rfl hnb
          | any => simp [handle_event]
          | toOnly => simp [handle_event]
          | fromOnly => simp [handle_event]
          | other => simp [handle_event]
        | any => simp [handle_event]
        | data c => cases c <;> simp [handle_event]
        | metadata k => cases k <;> simp [handle_event]
        | other => simp [handle_event]
      | create =>
        simp only [handle_event, List.head?]
        split <;> try simp
        split <;> try simp
        split <;> simp
      | any => simp [handle_event]
      | access => simp [handle_event]
      | remove => simp [handle_event]
      | other => simp [handle_event]
  · intro hlen
    match paths with
    | p :: q :: rest =>
      cases kind with
      | modify mk =>
        cases mk with
        | name rm => cases rm <;> simp [handle_event]
        | any => simp [handle_event]
        | data c => cases c <;> simp [handle_event]
        | metadata k => cases k <;> simp [handle_event]
        | other => simp [handle_event]
      | create =>
        simp only [handle_event, List.head?]
        split <;> try simp
        split <;> try simp
        split <;> simp
      | any => simp [handle_event]
      | access => simp [handle_event]
      | remove => simp [handle_event]
      | other => simp [handle_event]
  · rintro rfl hlen
    match paths with
    | [] => rfl
    | [p] => rfl

/-- Witness for C10 at concrete inputs. -/
theorem C10_path_indexing_witness :
    handle_event fs0 ["w"] ["o"] .access [] = none
    ∧ (handle_event fs0 ["w"] ["o"] .access [["w", "x"]]).isSome = true
    ∧ (handle_event fs0 ["w"] ["o"] (.modify (.name .both))
        [["w", "x"], ["w", "y"]]).isSome = true
    ∧ handle_event fs0 ["w"] ["o"] (.modify (.name .both)) [["w", "x"]] = none := by
  refine ⟨?_, ?_, ?_, ?_⟩
  · exact (C10_path_indexing fs0 ["w"] ["o"] .access []).1 rfl
  · exact (C10_path_indexing fs0 ["w"] ["o"] .access [["w", "x"]]).2.1
      (by simp) (by simp)
  · exact (C10_path_indexing fs0 ["w"] ["o"] (.modify (.name .both))
      [["w", "x"], ["w", "y"]]).2.2.1 (by simp)
  · exact (C10_path_indexing fs0 ["w"] ["o"] (.modify (.name .both))
      [["w", "x"]]).2.2.2 rfl (by simp)

/-- Witness fixture: metadata reporting a link count of 2 on a plain file. -/
def fsHard : Fs := { fs0 with
  isFile := fun _ => true
  metadata := fun _ => some ⟨420, 0, 0, 0, 0, 0, 0, 2⟩ }

/-- Witness fixture: a symlink whose target lies under the watch root. -/
def fsSymIn : Fs := { fs0 with
  isSymlink := fun _ => true
  readLink := fun _ => some ["w", "t"] }

/-- Witness fixture: a symlink whose target lies outside the watch root. -/
def fsSymOut : Fs := { fs0 with
  isSymlink := fun _ => true
  readLink := fun _ => some ["etc", "t"] }

/-- Witness fixture: readable metadata with a failing permission step. -/
def fsMeta : Fs := { fs0 with
  metadata := fun _ => some ⟨420, 7, 8, 9, 10, 3, 4, 1⟩
  setPermissionsFails := fun _ => true }

/-- C4: a both-halves rename attempts the destination rename exactly when
both endpoints remap successfully; a one-sided remap failure reports the
not-under-watch-root condition and performs no destination mutation at
either endpoint. -/
theorem C4_rename_both_endpoints (fs : Fs) (w o p q : RPath) (rest : List RPath)
    (tr : List Effect)
    (h : handle_event fs w o (.modify (.name .both)) (p :: q :: rest) = some tr) :
    (∀ a b, change_root w o p = some a → change_root w o q = some b →
      Effect.rename a b ∈ tr)
    ∧ ((change_root w o p = none ∨ change_root w o q = none) →
        mutations tr = [] ∧ ∃ x, Effect.log (.notUnderWatchRoot w x) ∈ tr)
    ∧ (∀ a b, Effect.rename a b ∈ tr →
        (change_root w o p).isSome = true ∧ (change_root w o q).isSome = true) := by
  have h' : some (handle_event_rename fs w o p q) = some tr := h
  obtain rfl := (Option.some.inj h').symm
  refine ⟨?_, ?_, ?_⟩
  · intro a b ha hb
    simp only [handle_event_rename, ha, hb]
    split <;> simp
  · intro hcase
    cases hcp : change_root w o p with
    | none =>
      refine ⟨by simp [handle_event_rename, hcp, mutations, Effect.isLog], p, ?_⟩
      simp [handle_event_rename, hcp]
    | some a =>
      cases hcq : change_root w o q with
      | none =>
        refine ⟨by simp [handle_event_rename, hcp, hcq, mutations, Effect.isLog], q, ?_⟩
        simp [handle_event_rename, hcp, hcq]
      | some b =>
        rcases hcase with hnone | hnone
        · exact absurd hcp (by simp [hnone])
        · exact absurd hcq (by simp [hnone])
  · intro a b hmem
    cases hcp : change_root w o p with
    | none => simp [handle_event_rename, hcp] at hmem
    | some x =>
      cases hcq : change_root w o q with
      | none => simp [handle_event_rename, hcp, hcq] at hmem
      | some y => simp

/-- Witness for C4 at concrete inputs. -/
theorem C4_rename_both_endpoints_witness :
    Effect.rename ["o", "x"] ["o", "y"] ∈
      [Effect.log (.renamed ["w", "x"] ["w", "y"]),
       Effect.rename ["o", "x"] ["o", "y"]] :=
  (C4_rename_both_endpoints fs0 ["w"] ["o"] ["w", "x"] ["w", "y"] [] _ rfl).1
    ["o", "x"] ["o", "y"] (by decide) (by decide)

/-- C5: a Remove event whose path remaps performs a recursive removal at
the destination precisely when the mirrored destination path is currently
a directory, and a single-entry file removal otherwise. -/
theorem C5_remove_recursive_iff_dir (fs : Fs) (w o path : RPath) (rest : List RPath)
    (tr : List Effect) (t : RPath)
    (h : handle_event fs w o .remove (path :: rest) = some tr)
    (hcr : change_root w o path = some t) :
    (fs.isDir t = true → Effect.removeDirAll t ∈ tr ∧ ∀ u, Effect.removeFile u ∉ tr)
    ∧ (fs.isDir t = false → Effect.removeFile t ∈ tr ∧ ∀ u, Effect.removeDirAll u ∉ tr) := by
  have h' : some (handle_event_delete fs w o path) = some tr := h
  obtain rfl := (Option.some.inj h').symm
  constructor
  · intro hdir
    refine ⟨?_, ?_⟩
    · simp only [handle_event_delete, hcr, hdir]
      split <;> simp_all
    · intro u
      simp only [handle_event_delete, hcr, hdir]
      split <;> simp_all
  · intro hdir
    refine ⟨?_, ?_⟩
    · simp only [handle_event_delete, hcr, hdir]
      split <;> simp_all
    · intro u
      simp only [handle_event_delete, hcr, hdir]
      split <;> simp_all

/-- Witness for C5 at concrete inputs (destination currently a directory,
and destination not a directory). -/
theorem C5_remove_recursive_iff_dir_witness :
    (Effect.removeDirAll ["o", "d"] ∈
      [Effect.log (.deleted ["w", "d"]), Effect.removeDirAll ["o", "d"]])
    ∧ (Effect.removeFile ["o", "f"] ∈
      [Effect.log (.deleted ["w", "f"]), Effect.removeFile ["o", "f"]]) :=
  ⟨((C5_remove_recursive_iff_dir { fs0 with isDir := fun _ => true }
      ["w"] ["o"] ["w", "d"] [] _ ["o", "d"] rfl (by decide)).1 rfl).1,
   ((C5_remove_recursive_iff_dir fs0
      ["w"] ["o"] ["w", "f"] [] _ ["o", "f"] rfl (by decide)).2 rfl).1⟩

/-- C6: a Create event on a plain file with link count greater than one
only emits the distinguishable unsupported-hardlink log line and mutates
nothing; with link count exactly one it is classified as a regular-file
creation. -/
theorem C6_hardlink_unsupported (fs : Fs) (w o path : RPath) (rest : List RPath)
    (tr : List Effect) (md : Metadata)
    (h : handle_event fs w o .create (path :: rest) = some tr)
    (hsym : fs.isSymlink path = false) (hfile : fs.isFile path = true)
    (hmd : fs.metadata path = some md) :
    (1 < md.nlink →
      tr = [Effect.log (.createdHardlinkUnsupported path)] ∧ mutations tr = [])
    ∧ (md.nlink = 1 → tr = [Effect.log (.createdFile path)]) := by
  simp only [handle_event, List.head?, hsym, hfile] at h
  obtain rfl := (Option.some.inj h).symm
  constructor
  · intro hn
    constructor
    · simp [handle_event_create_file, hmd, hn, handle_event_create_hardlink]
    · simp [handle_event_create_file, hmd, hn, handle_event_create_hardlink,
        mutations, Effect.isLog]
  · intro hn
    simp [handle_event_create_file, hmd, hn, handle_event_create_regularfile]

/-- Witness for C6 at concrete inputs (link count 2). -/
theorem C6_hardlink_unsupported_witness :
    handle_event fsHard
      ["w"] ["o"] .create [["w", "f"]]
      = some [Effect.log (.createdHardlinkUnsupported ["w", "f"])] := by
  have h := (C6_hardlink_unsupported fsHard
    ["w"] ["o"] ["w", "f"] [] _ ⟨420, 0, 0, 0, 0, 0, 0, 2⟩ rfl rfl rfl rfl).1
    (by decide)
  exact congrArg some h.1

/-- C7: the symlink created at the remapped destination points at the
remapped target when the link target lies under the watch root, and at the
original target verbatim otherwise. -/
theorem C7_symlink_target (fs : Fs) (w o path : RPath) (rest : List RPath)
    (tr : List Effect) (link_dst target : RPath)
    (h : handle_event fs w o .create (path :: rest) = some tr)
    (hsym : fs.isSymlink path = true)
    (hcr : change_root w o path = some link_dst)
    (hrl : fs.readLink path = some target) :
    (w <+: target → Effect.symlink (o ++ target.drop w.length) link_dst ∈ tr)
    ∧ (¬ w <+: target → Effect.symlink target link_dst ∈ tr) := by
  simp only [handle_event, List.head?, hsym, if_pos] at h
  obtain rfl := (Option.some.inj h).symm
  constructor
  · rintro ⟨r, rfl⟩
    rw [List.drop_left]
    simp only [handle_event_create_symlink, hcr, hrl, change_root_append, Option.getD_some]
    split <;> simp
  · intro hpre
    have hn : change_root w o target = none := change_root_eq_none_iff.mpr hpre
    simp only [handle_event_create_symlink, hcr, hrl, hn, Option.getD_none]
    split <;> simp

/-- Witness for C7 at concrete inputs (one target under the watch root,
one outside it). -/
theorem C7_symlink_target_witness :
    (Effect.symlink (["o"] ++ ["t"]) ["o", "l"] ∈
      [Effect.log (.createdSymlink ["w", "l"]),
       Effect.symlink ["o", "t"] ["o", "l"]])
    ∧ (Effect.symlink ["etc", "t"] ["o", "l"] ∈
      [Effect.log (.createdSymlink ["w", "l"]),
       Effect.symlink ["etc", "t"] ["o", "l"]]) :=
  ⟨(C7_symlink_target fsSymIn
      ["w"] ["o"] ["w", "l"] [] _ ["o", "l"] ["w", "t"] rfl rfl (by decide) rfl).1
      (by decide),
   (C7_symlink_target fsSymOut
      ["w"] ["o"] ["w", "l"] [] _ ["o", "l"] ["etc", "t"] rfl rfl (by decide) rfl).2
      (by decide)⟩

/-- C8: a Modify/Metadata event whose path remaps and whose source
metadata read succeeds attempts permissions, then timestamps, then (when
the C-string conversion succeeds) ownership, as independent steps whose
sequence does not depend on the individual failures, each failure being
reported by its own log line. -/
theorem C8_metadata_steps (fs : Fs) (w o path : RPath) (rest : List RPath)
    (tr : List Effect) (m : RPath) (md : Metadata)
    (h : handle_event fs w o (.modify (.metadata .any)) (path :: rest) = some tr)
    (hcr : change_root w o path = some m)
    (hmd : fs.metadata path = some md) :
    mutations tr = Effect.setPermissions m md.perm ::
      Effect.setFileTimes m md.atime (md.atimeNsec % 2 ^ 32) md.mtime (md.mtimeNsec % 2 ^ 32) ::
      (if fs.cstringConvertFails m = true then [] else [Effect.chown m md.uid md.gid])
    ∧ (fs.setPermissionsFails m = true → Effect.log (.setPermissionsFailed m) ∈ tr)
    ∧ (fs.setFileTimesFails m = true → Effect.log (.setTimestampsFailed m) ∈ tr)
    ∧ (fs.cstringConvertFails m = true → Effect.log (.chownConvertFailed m) ∈ tr)
    ∧ (fs.cstringConvertFails m = false → fs.chownFails m = true →
        Effect.log (.chownFailed m) ∈ tr) := by
  have h' : some (handle_event_metadata fs w o path) = some tr := h
  obtain rfl := (Option.some.inj h').symm
  simp only [handle_event_metadata, hcr, hmd]
  cases hp : fs.setPermissionsFails m <;>
    cases ht : fs.setFileTimesFails m <;>
      cases hc : fs.cstringConvertFails m <;>
        cases hch : fs.chownFails m <;>
          simp [mutations, Effect.isLog, hp, ht, hc, hch]

/-- Witness for C8 at concrete inputs (permission step failing, C-string
conversion succeeding). -/
theorem C8_metadata_steps_witness :
    mutations ((handle_event fsMeta
      ["w"] ["o"] (.modify (.metadata .any)) [["w", "f"]]).getD [])
      = Effect.setPermissions ["o", "f"] 420 ::
        Effect.setFileTimes ["o", "f"] 7 8 9 10 ::
        [Effect.chown ["o", "f"] 3 4]
    ∧ Effect.log (.setPermissionsFailed ["o", "f"]) ∈
        (handle_event fsMeta
          ["w"] ["o"] (.modify (.metadata .any)) [["w", "f"]]).getD [] := by
  have h := C8_metadata_steps fsMeta
    ["w"] ["o"] ["w", "f"] [] _ ["o", "f"] ⟨420, 7, 8, 9, 10, 3, 4, 1⟩ rfl (by decide) rfl
  refine ⟨?_, h.2.1 rfl⟩
  have := h.1
  simpa using this

/-- Witness fixture: a plain regular file (link count 1) with readable
metadata. -/
def fsReg : Fs := { fs0 with
  isFile := fun _ => true
  metadata := fun _ => some ⟨420, 0, 0, 0, 0, 0, 0, 1⟩ }

/-- C1 counterexample: a Create event for a regular (non-hardlinked,
non-symlink) file under the watch root only logs `Created[file]`; no copy
effect reaches the mirrored destination path, and no destination mutation
happens at all. -/
theorem C1_counterexample :
    fsReg.isSymlink ["w", "a.txt"] = false
    ∧ fsReg.isFile ["w", "a.txt"] = true
    ∧ (fsReg.metadata ["w", "a.txt"]).map Metadata.nlink = some 1
    ∧ change_root ["w"] ["o"] ["w", "a.txt"] = some ["o", "a.txt"]
    ∧ handle_event fsReg ["w"] ["o"] .create [["w", "a.txt"]]
        = some [Effect.log (.createdFile ["w", "a.txt"])]
    ∧ Effect.copyFile ["w", "a.txt"] ["o", "a.txt"] ∉
        [Effect.log (.createdFile ["w", "a.txt"])]
    ∧ mutations [Effect.log (.createdFile ["w", "a.txt"])] = [] := by
  refine ⟨rfl, rfl, rfl, by decide, by decide, by decide, rfl⟩

/-- C1 (amended): a Create event for a regular (non-hardlinked,
non-symlink) file only prints the `Created[file]` line and performs no
destination mutation; the file content reaches the mirrored destination
through the Modify/Data handler instead, which does emit the copy to the
remapped path. -/
theorem C1_create_regular_file_amended (fs : Fs) (w o path : RPath) (rest : List RPath)
    (tr : List Effect) (md : Metadata) (m : RPath)
    (h : handle_event fs w o .create (path :: rest) = some tr)
    (hsym : fs.isSymlink path = false) (hfile : fs.isFile path = true)
    (hmd : fs.metadata path = some md) (hn : md.nlink = 1)
    (hcr : change_root w o path = some m) :
    tr = [Effect.log (.createdFile path)]
    ∧ mutations tr = []
    ∧ (∀ tr', handle_event fs w o (.modify (.data .any)) (path :: rest) = some tr' →
        ∀ par, path_parent m = some par → fs.createDirAllFails par = false →
          Effect.copyFile path m ∈ tr') := by
  simp only [handle_event, List.head?, hsym, hfile] at h
  obtain rfl := (Option.some.inj h).symm
  refine ⟨?_, ?_, ?_⟩
  · simp [handle_event_create_file, hmd, hn, handle_event_create_regularfile]
  · simp [handle_event_create_file, hmd, hn, handle_event_create_regularfile,
      mutations, Effect.isLog]
  · intro tr' h' par hpar hfail
    have h'' : some (handle_event_data fs w o path) = some tr' := h'
    obtain rfl := (Option.some.inj h'').symm
    simp only [handle_event_data, hcr, hpar, hfail]
    split <;> simp_all

/-- Witness for the amended C1 at concrete inputs. -/
theorem C1_create_regular_file_amended_witness :
    mutations [Effect.log (.createdFile ["w", "a.txt"])] = []
    ∧ Effect.copyFile ["w", "a.txt"] ["o", "a.txt"] ∈
        [Effect.log (.dataChanged ["w", "a.txt"]), Effect.createDirAll ["o"],
         Effect.copyFile ["w", "a.txt"] ["o", "a.txt"]] := by
  have h := C1_create_regular_file_amended fsReg ["w"] ["o"] ["w", "a.txt"] [] _
    ⟨420, 0, 0, 0, 0, 0, 0, 1⟩ ["o", "a.txt"] rfl rfl rfl rfl rfl (by decide)
  exact ⟨h.2.1, h.2.2 _ rfl ["o"] rfl rfl⟩

/-- The event kinds whose handler branch prints nothing: Access, the
`ModifyKind::Any` fall-through, one-sided or unclassified rename halves,
and non-`Any` metadata/data modifications. -/
def silentEvent : EventKind → Bool
  | .access => true
  | .modify .any => true
  | .modify (.name .both) => false
  | .modify (.name _) => true
  | .modify (.metadata .any) => false
  | .modify (.metadata _) => true
  | .modify (.data .any) => false
  | .modify (.data _) => true
  | _ => false

/-- C9 counterexample: an Access event is processed to a trace with no
output line at all. -/
theorem C9_counterexample :
    handle_event fs0 ["w"] ["o"] .access [["w", "x"]] = some []
    ∧ ¬ ∃ l : LogLine, Effect.log l ∈ ([] : List Effect) :=
  ⟨rfl, by simp⟩

/-- C9 (amended): every handled event prints at least one line except the
silent branches (Access, `ModifyKind::Any`, one-sided or unclassified
rename halves, non-`Any` metadata/data modifications), which print
nothing. -/
theorem C9_logging_amended (fs : Fs) (w o : RPath) (kind : EventKind)
    (paths : List RPath) (tr : List Effect)
    (h : handle_event fs w o kind paths = some tr) :
    (silentEvent kind = false → ∃ l, Effect.log l ∈ tr)
    ∧ (silentEvent kind = true → tr = []) := by
  match paths with
  | [] => exact absurd h (by simp [handle_event])
  | p :: rest =>
    cases kind with
    | any =>
      obtain rfl := (Option.some.inj h).symm
      exact ⟨fun _ => ⟨.unknownUnsupported p, by simp⟩, fun hs => by simp [silentEvent] at hs⟩
    | access =>
      obtain rfl := (Option.some.inj h).symm
      exact ⟨fun hs => by simp [silentEvent] at hs, fun _ => rfl⟩
    | other =>
      obtain rfl := (Option.some.inj h).symm
      exact ⟨fun _ => ⟨.otherUnsupported p, by simp⟩, fun hs => by simp [silentEvent] at hs⟩
    | remove =>
      have h' : some (handle_event_delete fs w o p) = some tr := h
      obtain rfl := (Option.some.inj h').symm
      refine ⟨fun _ => ⟨.deleted p, ?_⟩, fun hs => by simp [silentEvent] at hs⟩
      exact List.mem_cons_self _ _
    | create =>
      refine ⟨fun _ => ?_, fun hs => by simp [silentEvent] at hs⟩
      cases hs : fs.isSymlink p with
      | true =>
        simp only [handle_event, List.head?, hs, if_pos] at h
        obtain rfl := (Option.some.inj h).symm
        exact ⟨.createdSymlink p, List.mem_cons_self _ _⟩
      | false =>
        cases hf : fs.isFile p with
        | true =>
          simp only [handle_event, List.head?, hs, hf] at h
          obtain rfl := (Option.some.inj h).symm
          cases hmd : fs.metadata p with
          | none =>
            exact ⟨.getMetadataFailed p, by
              simp [handle_event_create_file, hmd]⟩
          | some md =>
            by_cases hn : 1 < md.nlink
            · exact ⟨.createdHardlinkUnsupported p, by
                simp [handle_event_create_file, hmd, hn, handle_event_create_hardlink]⟩
            · exact ⟨.createdFile p, by
                simp [handle_event_create_file, hmd, hn, handle_event_create_regularfile]⟩
        | false =>
          cases hd : fs.isDir p with
          | true =>
            simp only [handle_event, List.head?, hs, hf, hd] at h
            obtain rfl := (Option.some.inj h).symm
            exact ⟨.createdDir p, List.mem_cons_self _ _⟩
          | false =>
            simp only [handle_event, List.head?, hs, hf, hd] at h
            obtain rfl := (Option.some.inj h).symm
            exact ⟨.createOtherUnsupported p, by simp⟩
    | modify mk =>
      cases mk with
      | any =>
        obtain rfl := (Option.some.inj h).symm
        exact ⟨fun hs => by simp [silentEvent] at hs, fun _ => rfl⟩
      | other =>
        obtain rfl := (Option.some.inj h).symm
        exact ⟨fun _ => ⟨.modifyOtherUnsupported p, by simp⟩,
          fun hs => by simp [silentEvent] at hs⟩
      | metadata k =>
        cases k with
        | any =>
          have h' : some (handle_event_metadata fs w o p) = some tr := h
          obtain rfl := (Option.some.inj h').symm
          refine ⟨fun _ => ⟨.modifyMetadata p, List.mem_cons_self _ _⟩,
            fun hs => by simp [silentEvent] at hs⟩
        | accessTime =>
          obtain rfl := (Option.some.inj h).symm
          exact ⟨fun hs => by simp [silentEvent] at hs, fun _ => rfl⟩
        | writeTime =>
          obtain rfl := (Option.some.inj h).symm
          exact ⟨fun hs => by simp [silentEvent] at hs, fun _ => rfl⟩
        | permissions =>
          obtain rfl := (Option.some.inj h).symm
          exact ⟨fun hs => by simp [silentEvent] at hs, fun _ => rfl⟩
        | ownership =>
          obtain rfl := (Option.some.inj h).symm
          exact ⟨fun hs => by simp [silentEvent] at hs, fun _ => rfl⟩
        | extended =>
          obtain rfl := (Option.some.inj h).symm
          exact ⟨fun hs => by simp [silentEvent] at hs, fun _ => rfl⟩
        | other =>
          obtain rfl := (Option.some.inj h).symm
          exact ⟨fun hs => by simp [silentEvent] at hs, fun _ => rfl⟩
      | data c =>
        cases c with
        | any =>
          have h' : some (handle_event_data fs w o p) = some tr := h
          obtain rfl := (Option.some.inj h').symm
          refine ⟨fun _ => ⟨.dataChanged p, List.mem_cons_self _ _⟩,
            fun hs => by simp [silentEvent] at hs⟩
        | size =>
          obtain rfl := (Option.some.inj h).symm
          exact ⟨fun hs => by simp [silentEvent] at hs, fun _ => rfl⟩
        | content =>
          obtain rfl := (Option.some.inj h).symm
          exact ⟨fun hs => by simp [silentEvent] at hs, fun _ => rfl⟩
        | other =>
          obtain rfl := (Option.some.inj h).symm
          exact ⟨fun hs => by simp [silentEvent] at hs, fun _ => rfl⟩
      | name rm =>
        cases rm with
        | both =>
          match rest with
          | [] => exact absurd h (by simp [handle_event])
          | q :: rest' =>
            have h' : some (handle_event_rename fs w o p q) = some tr := h
            obtain rfl := (Option.some.inj h').symm
            refine ⟨fun _ => ⟨.renamed p q, List.mem_cons_self _ _⟩,
              fun hs => by simp [silentEvent] at hs⟩
        | any =>
          obtain rfl := (Option.some.inj h).symm
          exact ⟨fun hs => by simp [silentEvent] at hs, fun _ => rfl⟩
        | toOnly =>
          obtain rfl := (Option.some.inj h).symm
          exact ⟨fun hs => by simp [silentEvent] at hs, fun _ => rfl⟩
        | fromOnly =>
          obtain rfl := (Option.some.inj h).symm
          exact ⟨fun hs => by simp [silentEvent] at hs, fun _ => rfl⟩
        | other =>
          obtain rfl := (Option.some.inj h).symm
          exact ⟨fun hs => by simp [silentEvent] at hs, fun _ => rfl⟩

/-- Witness for the amended C9 at concrete inputs. -/
theorem C9_logging_amended_witness :
    (∃ l, Effect.log l ∈
      [Effect.log (.deleted ["w", "x"]), Effect.removeFile ["o", "x"]])
    ∧ ([] : List Effect) = [] :=
  ⟨(C9_logging_amended fs0 ["w"] ["o"] .remove [["w", "x"]] _ rfl).1 rfl,
   (C9_logging_amended fs0 ["w"] ["o"] .access [["w", "x"]] _ rfl).2 rfl⟩

lemma mutations_cons_log (l : LogLine) (tr : List Effect) :
    mutations (.log l :: tr) = mutations tr := by
  simp [mutations, Effect.isLog]

lemma mutations_delete_none {w o p : RPath} (fs : Fs) (h : change_root w o p = none) :
    mutations (handle_event_delete fs w o p) = [] := by
  simp [handle_event_delete, h, mutations, Effect.isLog]

lemma mutations_delete_some {w o p nt : RPath} (fs : Fs) (h : change_root w o p = some nt) :
    mutations (handle_event_delete fs w o p)
      = [if fs.isDir nt then Effect.removeDirAll nt else Effect.removeFile nt] := by
  simp only [handle_event_delete, h]
  cases hd : fs.isDir nt <;>
    [cases hf : fs.removeFileFails nt; cases hf : fs.removeDirAllFails nt] <;>
      simp [mutations, Effect.isLog, hd, hf]

lemma mutations_rename_none_left {w o p q : RPath} (fs : Fs)
    (h : change_root w o p = none) :
    mutations (handle_event_rename fs w o p q) = [] := by
  simp [handle_event_rename, h, mutations, Effect.isLog]

lemma mutations_rename_none_right {w o p q a : RPath} (fs : Fs)
    (hp : change_root w o p = some a) (hq : change_root w o q = none) :
    mutations (handle_event_rename fs w o p q) = [] := by
  simp [handle_event_rename, hp, hq, mutations, Effect.isLog]

lemma mutations_rename_some {w o p q a b : RPath} (fs : Fs)
    (hp : change_root w o p = some a) (hq : change_root w o q = some b) :
    mutations (handle_event_rename fs w o p q) = [Effect.rename a b] := by
  simp only [handle_event_rename, hp, hq]
  cases hf : fs.renameFails a b <;> simp [mutations, Effect.isLog, hf]

lemma mutations_metadata_none {w o p : RPath} (fs : Fs) (h : change_root w o p = none) :
    mutations (handle_event_metadata fs w o p) = [] := by
  simp [handle_event_metadata, h, mutations, Effect.isLog]

lemma mutations_metadata_nomd {w o p m : RPath} (fs : Fs)
    (hcr : change_root w o p = some m) (hmd : fs.metadata p = none) :
    mutations (handle_event_metadata fs w o p) = [] := by
  simp [handle_event_metadata, hcr, hmd, mutations, Effect.isLog]

lemma mutations_metadata_some {w o p m : RPath} {md : Metadata} (fs : Fs)
    (hcr : change_root w o p = some m) (hmd : fs.metadata p = some md) :
    mutations (handle_event_metadata fs w o p)
      = Effect.setPermissions m md.perm ::
        Effect.setFileTimes m md.atime (md.atimeNsec % 2 ^ 32) md.mtime (md.mtimeNsec % 2 ^ 32) ::
        (if fs.cstringConvertFails m then [] else [Effect.chown m md.uid md.gid]) := by
  simp only [handle_event_metadata, hcr, hmd]
  cases hp : fs.setPermissionsFails m <;>
    cases ht : fs.setFileTimesFails m <;>
      cases hc : fs.cstringConvertFails m <;>
        cases hch : fs.chownFails m <;>
          simp [mutations, Effect.isLog, hp, ht, hc, hch]

lemma mutations_data_none {w o p : RPath} (fs : Fs) (h : change_root w o p = none) :
    mutations (handle_event_data fs w o p) = [] := by
  simp [handle_event_data, h, mutations, Effect.isLog]

lemma mutations_data_parent {w o p m par : RPath} (fs : Fs)
    (hcr : change_root w o p = some m) (hpar : path_parent m = some par) :
    mutations (handle_event_data fs w o p)
      = Effect.createDirAll par ::
        (if fs.createDirAllFails par then [] else [Effect.copyFile p m]) := by
  simp only [handle_event_data, hcr, hpar]
  cases hf : fs.createDirAllFails par with
  | true => simp [mutations, Effect.isLog, hf]
  | false =>
    cases hcf : fs.copyFails p m <;> simp [mutations, Effect.isLog, hf, hcf]

lemma mutations_data_noparent {w o p m : RPath} (fs : Fs)
    (hcr : change_root w o p = some m) (hpar : path_parent m = none) :
    mutations (handle_event_data fs w o p) = [Effect.copyFile p m] := by
  simp only [handle_event_data, hcr, hpar]
  cases hcf : fs.copyFails p m <;> simp [mutations, Effect.isLog, hcf]

lemma mutations_symlink_none {w o p : RPath} (fs : Fs) (h : change_root w o p = none) :
    mutations (handle_event_create_symlink fs w o p) = [] := by
  simp [handle_event_create_symlink, h, mutations, Effect.isLog]

lemma mutations_symlink_nolink {w o p link : RPath} (fs : Fs)
    (hcr : change_root w o p = some link) (hrl : fs.readLink p = none) :
    mutations (handle_event_create_symlink fs w o p) = [] := by
  simp [handle_event_create_symlink, hcr, hrl, mutations, Effect.isLog]

lemma mutations_symlink_some {w o p link target : RPath} (fs : Fs)
    (hcr : change_root w o p = some link) (hrl : fs.readLink p = some target) :
    mutations (handle_event_create_symlink fs w o p)
      = [Effect.symlink ((change_root w o target).getD target) link] := by
  simp only [handle_event_create_symlink, hcr, hrl]
  cases hf : fs.symlinkFails ((change_root w o target).getD target) link <;>
    simp [mutations, Effect.isLog, hf]

lemma mutations_create_dir_none {w o p : RPath} (fs : Fs) (h : change_root w o p = none) :
    mutations (handle_event_create_dir fs w o p) = [] := by
  simp [handle_event_create_dir, h, mutations, Effect.isLog]

lemma mutations_create_dir_some {w o p np : RPath} (fs : Fs)
    (h : change_root w o p = some np) :
    mutations (handle_event_create_dir fs w o p) = [Effect.createDir np] := by
  simp only [handle_event_create_dir, h]
  cases hf : fs.createDirFails np <;> simp [mutations, Effect.isLog, hf]

lemma mutations_create_file (fs : Fs) (w o p : RPath) :
    mutations (handle_event_create_file fs w o p) = [] := by
  cases hmd : fs.metadata p with
  | none => simp [handle_event_create_file, hmd, mutations, Effect.isLog]
  | some md =>
    by_cases hn : 1 < md.nlink <;>
      simp [handle_event_create_file, hmd, hn, handle_event_create_hardlink,
        handle_event_create_regularfile, mutations, Effect.isLog]

lemma mem_mutations_of_targets {e : Effect} {tr : List Effect} {t : RPath}
    (he : e ∈ tr) (ht : t ∈ mutTargets e) : e ∈ mutations tr := by
  refine List.mem_filter.mpr ⟨he, ?_⟩
  cases e <;> simp [mutTargets] at ht ⊢ <;> simp [Effect.isLog]

/-- The event kinds whose handler consults the path remapper on the first
path (and therefore reports the not-under-watch-root condition when the
remap fails): Remove, both-halves renames, Metadata-Any and Data-Any
modifications, and Create events disambiguated to symlinks or
directories. -/
def remapsFirstPath (fs : Fs) (kind : EventKind) (path : RPath) : Bool :=
  match kind with
  | .remove => true
  | .modify (.name .both) => true
  | .modify (.metadata .any) => true
  | .modify (.data .any) => true
  | .create => fs.isSymlink path || (!fs.isFile path && fs.isDir path)
  | _ => false

lemma out_of_root_behavior (fs : Fs) (w o : RPath) (kind : EventKind)
    (rest : List RPath) (tr : List Effect) (path : RPath)
    (h : handle_event fs w o kind (path :: rest) = some tr)
    (hcr : change_root w o path = none) :
    mutations tr = []
    ∧ (Effect.log (.notUnderWatchRoot w path) ∈ tr
        ↔ remapsFirstPath fs kind path = true) := by
  cases kind with
  | any =>
    obtain rfl := (Option.some.inj h).symm
    exact ⟨rfl, by simp [remapsFirstPath]⟩
  | access =>
    obtain rfl := (Option.some.inj h).symm
    exact ⟨rfl, by simp [remapsFirstPath]⟩
  | other =>
    obtain rfl := (Option.some.inj h).symm
    exact ⟨rfl, by simp [remapsFirstPath]⟩
  | remove =>
    have h' : some (handle_event_delete fs w o path) = some tr := h
    obtain rfl := (Option.some.inj h').symm
    refine ⟨mutations_delete_none fs hcr, ?_⟩
    simp [handle_event_delete, hcr, remapsFirstPath]
  | create =>
    cases hs : fs.isSymlink path with
    | true =>
      simp only [handle_event, List.head?, hs, if_pos] at h
      obtain rfl := (Option.some.inj h).symm
      refine ⟨mutations_symlink_none fs hcr, ?_⟩
      simp [handle_event_create_symlink, hcr, remapsFirstPath, hs]
    | false =>
      cases hf : fs.isFile path with
      | true =>
        simp only [handle_event, List.head?, hs, hf] at h
        obtain rfl := (Option.some.inj h).symm
        refine ⟨mutations_create_file fs w o path, ?_⟩
        cases hmd : fs.metadata path with
        | none =>
          simp [handle_event_create_file, hmd, remapsFirstPath, hs, hf]
        | some md =>
          by_cases hn : 1 < md.nlink <;>
            simp [handle_event_create_file, hmd, hn, handle_event_create_hardlink,
              handle_event_create_regularfile, remapsFirstPath, hs, hf]
      | false =>
        cases hd : fs.isDir path with
        | true =>
          simp only [handle_event, List.head?, hs, hf, hd] at h
          obtain rfl := (Option.some.inj h).symm
          refine ⟨mutations_create_dir_none fs hcr, ?_⟩
          simp [handle_event_create_dir, hcr, remapsFirstPath, hs, hf, hd]
        | false =>
          simp only [handle_event, List.head?, hs, hf, hd] at h
          obtain rfl := (Option.some.inj h).symm
          refine ⟨rfl, ?_⟩
          simp [remapsFirstPath, hs, hf, hd]
  | modify mk =>
    cases mk with
    | any =>
      obtain rfl := (Option.some.inj h).symm
      exact ⟨rfl, by simp [remapsFirstPath]⟩
    | other =>
      obtain rfl := (Option.some.inj h).symm
      exact ⟨rfl, by simp [remapsFirstPath]⟩
    | metadata k =>
      cases k with
      | any =>
        have h' : some (handle_event_metadata fs w o path) = some tr := h
        obtain rfl := (Option.some.inj h').symm
        refine ⟨mutations_metadata_none fs hcr, ?_⟩
        simp [handle_event_metadata, hcr, remapsFirstPath]
      | accessTime =>
        obtain rfl := (Option.some.inj h).symm
        exact ⟨rfl, by simp [remapsFirstPath]⟩
      | writeTime =>
        obtain rfl := (Option.some.inj h).symm
        exact ⟨rfl, by simp [remapsFirstPath]⟩
      | permissions =>
        obtain rfl := (Option.some.inj h).symm
        exact ⟨rfl, by simp [remapsFirstPath]⟩
      | ownership =>
        obtain rfl := (Option.some.inj h).symm
        exact ⟨rfl, by simp [remapsFirstPath]⟩
      | extended =>
        obtain rfl := (Option.some.inj h).symm
        exact ⟨rfl, by simp [remapsFirstPath]⟩
      | other =>
        obtain rfl := (Option.some.inj h).symm
        exact ⟨rfl, by simp [remapsFirstPath]⟩
    | data c =>
      cases c with
      | any =>
        have h' : some (handle_event_data fs w o path) = some tr := h
        obtain rfl := (Option.some.inj h').symm
        refine ⟨mutations_data_none fs hcr, ?_⟩
        simp [handle_event_data, hcr, remapsFirstPath]
      | size =>
        obtain rfl := (Option.some.inj h).symm
        exact ⟨rfl, by simp [remapsFirstPath]⟩
      | content =>
        obtain rfl := (Option.some.inj h).symm
        exact ⟨rfl, by simp [remapsFirstPath]⟩
      | other =>
        obtain rfl := (Option.some.inj h).symm
        exact ⟨rfl, by simp [remapsFirstPath]⟩
    | name rm =>
      cases rm with
      | both =>
        match rest with
        | [] => exact absurd h (by simp [handle_event])
        | q :: rest' =>
          have h' : some (handle_event_rename fs w o path q) = some tr := h
          obtain rfl := (Option.some.inj h').symm
          refine ⟨mutations_rename_none_left fs hcr, ?_⟩
          simp [handle_event_rename, hcr, remapsFirstPath]
      | any =>
        obtain rfl := (Option.some.inj h).symm
        exact ⟨rfl, by simp [remapsFirstPath]⟩
      | toOnly =>
        obtain rfl := (Option.some.inj h).symm
        exact ⟨rfl, by simp [remapsFirstPath]⟩
      | fromOnly =>
        obtain rfl := (Option.some.inj h).symm
        exact ⟨rfl, by simp [remapsFirstPath]⟩
      | other =>
        obtain rfl := (Option.some.inj h).symm
        exact ⟨rfl, by simp [remapsFirstPath]⟩

lemma handle_event_targets (fs : Fs) (w o : RPath) (kind : EventKind)
    (paths : List RPath) (tr : List Effect)
    (h : handle_event fs w o kind paths = some tr) :
    ∀ e ∈ tr, ∀ t ∈ mutTargets e,
      (∃ src, change_root w o src = some t)
      ∨ ∃ src m, change_root w o src = some m ∧ path_parent m = some t := by
  intro e he t ht
  have hm : e ∈ mutations tr := mem_mutations_of_targets he ht
  clear he
  match paths with
  | [] => exact absurd h (by simp [handle_event])
  | p :: rest =>
    cases kind with
    | any =>
      obtain rfl := (Option.some.inj h).symm
      simp [mutations, Effect.isLog] at hm
    | access =>
      obtain rfl := (Option.some.inj h).symm
      simp [mutations] at hm
    | other =>
      obtain rfl := (Option.some.inj h).symm
      simp [mutations, Effect.isLog] at hm
    | remove =>
      have h' : some (handle_event_delete fs w o p) = some tr := h
      obtain rfl := (Option.some.inj h').symm
      cases hcr : change_root w o p with
      | none => rw [mutations_delete_none fs hcr] at hm; simp at hm
      | some nt =>
        rw [mutations_delete_some fs hcr] at hm
        obtain rfl := List.mem_singleton.mp hm
        cases hd : fs.isDir nt <;> simp [hd, mutTargets] at ht <;>
          exact ht ▸ Or.inl ⟨p, hcr⟩
    | create =>
      cases hs : fs.isSymlink p with
      | true =>
        simp only [handle_event, List.head?, hs, if_pos] at h
        obtain rfl := (Option.some.inj h).symm
        cases hcr : change_root w o p with
        | none => rw [mutations_symlink_none fs hcr] at hm; simp at hm
        | some link =>
          cases hrl : fs.readLink p with
          | none => rw [mutations_symlink_nolink fs hcr hrl] at hm; simp at hm
          | some target =>
            rw [mutations_symlink_some fs hcr hrl] at hm
            obtain rfl := List.mem_singleton.mp hm
            simp [mutTargets] at ht
            exact ht ▸ Or.inl ⟨p, hcr⟩
      | false =>
        cases hf : fs.isFile p with
        | true =>
          simp only [handle_event, List.head?, hs, hf] at h
          obtain rfl := (Option.some.inj h).symm
          rw [mutations_create_file fs w o p] at hm
          simp at hm
        | false =>
          cases hd : fs.isDir p with
          | true =>
            simp only [handle_event, List.head?, hs, hf, hd] at h
            obtain rfl := (Option.some.inj h).symm
            cases hcr : change_root w o p with
            | none => rw [mutations_create_dir_none fs hcr] at hm; simp at hm
            | some np =>
              rw [mutations_create_dir_some fs hcr] at hm
              obtain rfl := List.mem_singleton.mp hm
              simp [mutTargets] at ht
              exact ht ▸ Or.inl ⟨p, hcr⟩
          | false =>
            simp only [handle_event, List.head?, hs, hf, hd] at h
            obtain rfl := (Option.some.inj h).symm
            simp [mutations, Effect.isLog] at hm
    | modify mk =>
      cases mk with
      | any =>
        obtain rfl := (Option.some.inj h).symm
        simp [mutations] at hm
      | other =>
        obtain rfl := (Option.some.inj h).symm
        simp [mutations, Effect.isLog] at hm
      | metadata k =>
        cases k with
        | any =>
          have h' : some (handle_event_metadata fs w o p) = some tr := h
          obtain rfl := (Option.some.inj h').symm
          cases hcr : change_root w o p with
          | none => rw [mutations_metadata_none fs hcr] at hm; simp at hm
          | some m =>
            cases hmd : fs.metadata p with
            | none => rw [mutations_metadata_nomd fs hcr hmd] at hm; simp at hm
            | some md =>
              rw [mutations_metadata_some fs hcr hmd] at hm
              rcases List.mem_cons.mp hm with rfl | hm'
              · simp [mutTargets] at ht
                exact ht ▸ Or.inl ⟨p, hcr⟩
              rcases List.mem_cons.mp hm' with rfl | hm''
              · simp [mutTargets] at ht
                exact ht ▸ Or.inl ⟨p, hcr⟩
              cases hc : fs.cstringConvertFails m with
              | true => rw [hc] at hm''; simp at hm''
              | false =>
                rw [hc] at hm''
                obtain rfl := List.mem_singleton.mp (by simpa using hm'')
                simp [mutTargets] at ht
                exact ht ▸ Or.inl ⟨p, hcr⟩
        | accessTime =>
          obtain rfl := (Option.some.inj h).symm
          simp [mutations] at hm
        | writeTime =>
          obtain rfl := (Option.some.inj h).symm
          simp [mutations] at hm
        | permissions =>
          obtain rfl := (Option.some.inj h).symm
          simp [mutations] at hm
        | ownership =>
          obtain rfl := (Option.some.inj h).symm
          simp [mutations] at hm
        | extended =>
          obtain rfl := (Option.some.inj h).symm
          simp [mutations] at hm
        | other =>
          obtain rfl := (Option.some.inj h).symm
          simp [mutations] at hm
      | data c =>
        cases c with
        | any =>
          have h' : some (handle_event_data fs w o p) = some tr := h
          obtain rfl := (Option.some.inj h').symm
          cases hcr : change_root w o p with
          | none => rw [mutations_data_none fs hcr] at hm; simp at hm
          | some m =>
            cases hpar : path_parent m with
            | none =>
              rw [mutations_data_noparent fs hcr hpar] at hm
              obtain rfl := List.mem_singleton.mp hm
              simp [mutTargets] at ht
              exact ht ▸ Or.inl ⟨p, hcr⟩
            | some par =>
              rw [mutations_data_parent fs hcr hpar] at hm
              rcases List.mem_cons.mp hm with rfl | hm'
              · simp [mutTargets] at ht
                exact ht ▸ Or.inr ⟨p, m, hcr, hpar⟩
              cases hfail : fs.createDirAllFails par with
              | true => rw [hfail] at hm'; simp at hm'
              | false =>
                rw [hfail] at hm'
                obtain rfl := List.mem_singleton.mp (by simpa using hm')
                simp [mutTargets] at ht
                exact ht ▸ Or.inl ⟨p, hcr⟩
        | size =>
          obtain rfl := (Option.some.inj h).symm
          simp [mutations] at hm
        | content =>
          obtain rfl := (Option.some.inj h).symm
          simp [mutations] at hm
        | other =>
          obtain rfl := (Option.some.inj h).symm
          simp [mutations] at hm
      | name rm =>
        cases rm with
        | both =>
          match rest with
          | [] => exact absurd h (by simp [handle_event])
          | q :: rest' =>
            have h' : some (handle_event_rename fs w o p q) = some tr := h
            obtain rfl := (Option.some.inj h').symm
            cases hcp : change_root w o p with
            | none => rw [mutations_rename_none_left fs hcp] at hm; simp at hm
            | some a =>
              cases hcq : change_root w o q with
              | none => rw [mutations_rename_none_right fs hcp hcq] at hm; simp at hm
              | some b =>
                rw [mutations_rename_some fs hcp hcq] at hm
                obtain rfl := List.mem_singleton.mp hm
                simp [mutTargets] at ht
                rcases ht with rfl | rfl
                · exact Or.inl ⟨p, hcp⟩
                · exact Or.inl ⟨q, hcq⟩
        | any =>
          obtain rfl := (Option.some.inj h).symm
          simp [mutations] at hm
        | toOnly =>
          obtain rfl := (Option.some.inj h).symm
          simp [mutations] at hm
        | fromOnly =>
          obtain rfl := (Option.some.inj h).symm
          simp [mutations] at hm
        | other =>
          obtain rfl := (Option.some.inj h).symm
          simp [mutations] at hm

/-- C3 counterexample: an Other-kind event with an out-of-root path
mutates nothing but emits only the `Other[unsupported]` line — no
not-under-watch-root diagnostic is produced. -/
theorem C3_counterexample :
    change_root ["w"] ["o"] ["etc", "x"] = none
    ∧ handle_event fs0 ["w"] ["o"] .other [["etc", "x"]]
        = some [Effect.log (.otherUnsupported ["etc", "x"])]
    ∧ Effect.log (.notUnderWatchRoot ["w"] ["etc", "x"]) ∉
        [Effect.log (.otherUnsupported ["etc", "x"])] := by
  refine ⟨by decide, rfl, by decide⟩

/-- C3 (amended): an event whose first path is not under the watch root
performs no destination mutation, and it emits the not-under-watch-root
diagnostic exactly when its handler consults the remapper (Remove,
both-halves renames, Metadata-Any and Data-Any modifications, Create of a
symlink or directory) — handler branches that never mutate emit no such
diagnostic; moreover every destination path any executor mutates is the
output of a successful prefix substitution, or its parent (the
parent-directory preparation step of the copy executor). -/
theorem C3_out_of_root_amended (fs : Fs) (w o : RPath) (kind : EventKind)
    (paths : List RPath) (tr : List Effect) (path : RPath)
    (h : handle_event fs w o kind paths = some tr)
    (hhead : paths.head? = some path) :
    (change_root w o path = none →
      mutations tr = []
      ∧ (Effect.log (.notUnderWatchRoot w path) ∈ tr
          ↔ remapsFirstPath fs kind path = true))
    ∧ (∀ e ∈ tr, ∀ t ∈ mutTargets e,
        (∃ src, change_root w o src = some t)
        ∨ ∃ src m, change_root w o src = some m ∧ path_parent m = some t) := by
  constructor
  · intro hcr
    match paths with
    | [] => exact absurd hhead (by simp)
    | p :: rest =>
      obtain rfl : p = path := by simpa using hhead
      exact out_of_root_behavior fs w o kind rest tr p h hcr
  · exact handle_event_targets fs w o kind paths tr h

/-- Witness for the amended C3 at concrete inputs. -/
theorem C3_out_of_root_amended_witness :
    mutations [Effect.log (.deleted ["etc", "x"]),
        Effect.log (.notUnderWatchRoot ["w"] ["etc", "x"])] = []
    ∧ (Effect.log (.notUnderWatchRoot ["w"] ["etc", "x"]) ∈
        [Effect.log (.deleted ["etc", "x"]),
         Effect.log (.notUnderWatchRoot ["w"] ["etc", "x"])]
        ↔ remapsFirstPath fs0 .remove ["etc", "x"] = true) :=
  (C3_out_of_root_amended fs0 ["w"] ["o"] .remove [["etc", "x"]] _ ["etc", "x"]
    rfl rfl).1 (by decide)

end Rustsync
